import Mathlib

/-!
Verification of the decision core of `noxifoxi/browsers` (`src/lib.rs`).

The development shallowly embeds the data model and the operations of the
source file: the opening-rule resolver, the visibility/ordering manager
(stable two-key sort, hide/restore/move), and the platform command builder.

Parts of the repository referenced by `lib.rs` but living in other modules
(the `url` crate's parser, the `url_rule` glob matcher, `SupportedApp` from
`browser_repository`, and `Config`/`ProfileAndOptions` from `utils`) are not
part of the embedded source; they are either taken as parameters (the URL
parser and the glob matcher, which the resolver only calls as black boxes)
or modelled from the specification, as marked in the doc comments.
-/

namespace Browsers

/-- Modelled from the spec: the target of an opening rule or of the default
opener (a profile id plus an incognito flag).  The Rust type
`ProfileAndOptions` lives in the `utils` module, which is outside the
embedded source; `lib.rs` reads exactly its `profile` and `incognito`
fields (lines 743-744 and 999-1000). -/
structure ProfileAndOptions where
  profile : String
  incognito : Bool
  deriving DecidableEq

/-- An opening rule, translated from `OpeningRule` in `lib.rs` (lines
425-429): optional source-app filter, optional URL pattern, optional
target. -/
structure OpeningRule where
  source_app : Option String
  url_pattern : Option String
  opener : Option ProfileAndOptions
  deriving DecidableEq

/-- Translated from `OpeningRulesAndDefaultProfile` in `lib.rs` (lines
431-434). -/
structure OpeningRulesAndDefaultProfile where
  opening_rules : List OpeningRule
  default_profile : Option ProfileAndOptions
  deriving DecidableEq

/-- Translated from `UrlOpenContext` in `lib.rs` (lines 1013-1016). -/
structure UrlOpenContext where
  cleaned_url : String
  source_app_maybe : Option String
  deriving DecidableEq

/-- Translated from `OpeningRulesAndDefaultProfile::source_app_matches`
(`lib.rs` lines 479-492): true when the rule carries no source-app filter;
otherwise exact string equality with the context's source app, and false
when the context carries no source app. -/
def source_app_matches (r : OpeningRule) (actual_source_app : Option String) : Bool :=
  match r.source_app with
  | some source_app_rule =>
    match actual_source_app with
    | some source_app => source_app_rule == source_app
    | none => false
  | none => true

/-- Translated from `OpeningRulesAndDefaultProfile::url_matches` (`lib.rs`
lines 465-477).  The glob matcher compiled from the pattern string lives in
the `url_rule` module, outside the embedded source; since the spec states
that matching is a pure function of the pattern string and the parsed URL,
it is taken here as the black-box parameter `gm` over an abstract parsed-URL
type `υ`. -/
def url_matches (gm : String → υ → Bool) (r : OpeningRule) (given_url : υ) : Bool :=
  match r.url_pattern with
  | some url_pattern => gm url_pattern given_url
  | none => true

/-- The conjunction tested by the resolver's loop (`lib.rs` line 453). -/
def rule_matches (gm : String → υ → Bool) (r : OpeningRule) (given_url : υ)
    (actual_source_app : Option String) : Bool :=
  url_matches gm r given_url && source_app_matches r actual_source_app

/-- The `for r in &self.opening_rules` loop of
`get_rule_for_source_app_and_url` together with the trailing default
handling (`lib.rs` lines 448-462). -/
def resolve_loop (gm : String → υ → Bool) (given_url : υ) (src : Option String)
    (default_profile : Option ProfileAndOptions) :
    List OpeningRule → Option ProfileAndOptions
  | [] => if default_profile.isSome then default_profile else none
  | r :: rest =>
    if rule_matches gm r given_url src then r.opener
    else resolve_loop gm given_url src default_profile rest

/-- Translated from `OpeningRulesAndDefaultProfile::get_rule_for_source_app_and_url`
(`lib.rs` lines 437-463).  `Url::from_str` belongs to the external `url`
crate and is taken as the black-box parameter `parse`; a parse failure
returns `none` before any rule is consulted. -/
def OpeningRulesAndDefaultProfile.get_rule_for_source_app_and_url
    (self : OpeningRulesAndDefaultProfile) (parse : String → Option υ)
    (gm : String → υ → Bool) (ctx : UrlOpenContext) : Option ProfileAndOptions :=
  match parse ctx.cleaned_url with
  | none => none
  | some given_url =>
    resolve_loop gm given_url ctx.source_app_maybe self.default_profile self.opening_rules

/-- A concrete rule used to instantiate the resolver theorems: applies only
to requests coming from source app `"A"`. -/
def ruleFromA : OpeningRule :=
  { source_app := some "A", url_pattern := none, opener := some ⟨"p1", false⟩ }

/-- A concrete catch-all rule with a target. -/
def ruleAny : OpeningRule :=
  { source_app := none, url_pattern := none, opener := some ⟨"p2", true⟩ }

/-- A concrete catch-all rule that carries no target. -/
def ruleNoOpener : OpeningRule :=
  { source_app := none, url_pattern := none, opener := none }

/-- A trivial parser standing in for `Url::from_str` in witnesses: fails
exactly on the string `"bad"`. -/
def parseOk : String → Option Unit :=
  fun s => if s == "bad" then none else some ()

/-- A parser that always fails, standing in for `Url::from_str` on
unparsable input. -/
def parseFail : String → Option Unit :=
  fun _ => none

/-- A trivial glob matcher used to instantiate the resolver theorems. -/
def gmAny : String → Unit → Bool :=
  fun _ _ => true

/-- Modelled from the spec: a compiled URL glob matcher (`UrlGlobMatcher`
from the `url_rule` module, outside the embedded source).  The spec states
that compilation is a pure function of the pattern string, so the compiled
matcher is represented by the pattern it was compiled from; the claims
below depend only on (non-)emptiness of matcher lists. -/
structure UrlGlobMatcher where
  pattern : String
  deriving DecidableEq

/-- Translated from `InstalledAppProfilesType` (`lib.rs` lines 400-404). -/
inductive InstalledAppProfilesType where
  | RealProfiles
  | PlaceholderProfiles
  deriving DecidableEq

/-- Modelled from the spec: the per-application descriptor (`SupportedApp`
from the `browser_repository` module, outside the embedded source).  The
spec lists its contents: an app/bundle id, capability flags
(supports-incognito, url-as-first-argument), the incognito argument list,
profile-selecting arguments, a URL-transform hook ("each supported
application may rewrite the URL"), and an application-level
restricted-domain fallback.  The two hooks are modelled as functions of the
profile's CLI argument value (and the URL). -/
structure SupportedApp where
  app_id : String
  supports_incognito : Bool
  url_as_first_arg : Bool
  incognito_args : List String
  profile_args : String → List String
  transform_url : String → String → String
  restricted_hostname_matchers : List UrlGlobMatcher

/-- Translated from `BrowserCommon` (`lib.rs` lines 83-91). -/
structure BrowserCommon where
  command : List String
  executable_path : String
  display_name : String
  icon_path : String
  supported_app : SupportedApp
  profiles_type : InstalledAppProfilesType

/-- Translated from `CommonBrowserProfile` (`lib.rs` lines 221-229); the
`Arc<BrowserCommon>` back-reference is embedded as a plain value, which the
spec licenses ("shared, read-only" and never mutated). -/
structure CommonBrowserProfile where
  profile_cli_arg_value : String
  profile_cli_container_name : Option String
  profile_name : String
  profile_icon : Option String
  profile_restricted_url_matchers : List UrlGlobMatcher
  app : BrowserCommon

/-- Translated from `CommonBrowserProfile::get_unique_id` (`lib.rs` lines
267-277): `<executable path>#<profile cli arg>[#<container>]`. -/
def CommonBrowserProfile.get_unique_id (p : CommonBrowserProfile) : String :=
  let app_and_profile := p.app.executable_path ++ "#" ++ p.profile_cli_arg_value
  match p.profile_cli_container_name with
  | some profile_cli_container_name => app_and_profile ++ "#" ++ profile_cli_container_name
  | none => app_and_profile

/-- Translated from `CommonBrowserProfile::get_unique_app_id` (`lib.rs`
lines 279-283, via `BrowserCommon::get_unique_app_id`). -/
def CommonBrowserProfile.get_unique_app_id (p : CommonBrowserProfile) : String :=
  p.app.executable_path

/-- Translated from `CommonBrowserProfile::get_restricted_url_matchers`
(`lib.rs` lines 293-301): the profile's own matchers if non-empty, else the
application-level fallback. -/
def CommonBrowserProfile.get_restricted_url_matchers
    (p : CommonBrowserProfile) : List UrlGlobMatcher :=
  if !p.profile_restricted_url_matchers.isEmpty then
    p.profile_restricted_url_matchers
  else
    p.app.supported_app.restricted_hostname_matchers

/-- Translated from `CommonBrowserProfile::has_priority_ordering` (`lib.rs`
lines 289-291). -/
def CommonBrowserProfile.has_priority_ordering (p : CommonBrowserProfile) : Bool :=
  !p.get_restricted_url_matchers.isEmpty

/-- Rust's `Iterator::position`: index of the first element satisfying the
predicate. -/
def position (pred : α → Bool) : List α → Option Nat
  | [] => none
  | a :: as => if pred a then some 0 else (position pred as).map (· + 1)

/-- Stable insertion into a list according to a natural-number key: the new
element goes before the first element of greater-or-equal key.  Together
with `sortByKey` this embeds Rust's stable `sort_by_key`. -/
def insertByKey (k : α → Nat) (a : α) : List α → List α
  | [] => [a]
  | b :: bs => if k a ≤ k b then a :: b :: bs else b :: insertByKey k a bs

/-- Stable insertion sort by a natural-number key.  Rust's
`slice::sort_by_key` is documented as a stable sort; any two stable sorts
by the same key agree, so the embedding uses insertion sort. -/
def sortByKey (k : α → Nat) : List α → List α
  | [] => []
  | a :: as => insertByKey k a (sortByKey k as)

/-- The key of the first `sort_by_key` call in `sort_browser_profiles`
(`lib.rs` lines 607-612): the position of the profile's unique id in the
explicit ranking, or the ranking's length when absent. -/
def order_key (profile_order : List String) (p : CommonBrowserProfile) : Nat :=
  match position (fun x => x == p.get_unique_id) profile_order with
  | some i => i
  | none => profile_order.length

/-- The key of the second `sort_by_key` call in `sort_browser_profiles`
(`lib.rs` line 615): Rust sorts by the boolean `!has_priority_ordering()`
with `false < true`, embedded as `0 < 1`. -/
def priority_key (p : CommonBrowserProfile) : Nat :=
  if p.has_priority_ordering then 0 else 1

/-- Translated from `sort_browser_profiles` (`lib.rs` lines 601-616): a
stable sort by ranking position followed by a stable sort moving
priority-ordered profiles first. -/
def sort_browser_profiles (visible_browser_profiles : List CommonBrowserProfile)
    (profile_order : List String) : List CommonBrowserProfile :=
  sortByKey priority_key (sortByKey (order_key profile_order) visible_browser_profiles)

/-- Translated from `MoveTo` (`lib.rs` lines 1111-1117). -/
inductive MoveTo where
  | UP
  | DOWN
  | TOP
  | BOTTOM
  deriving DecidableEq

/-- One left rotation of a list: `rotate_left(1)` on a Rust slice. -/
def rotL1 : List α → List α
  | [] => []
  | x :: xs => xs ++ [x]

/-- One right rotation of a list: `rotate_right(1)` on a Rust slice. -/
def rotR1 (l : List α) : List α :=
  (rotL1 l.reverse).reverse

/-- Applies `f` to the sub-slice `[i, j)` of a list, leaving the rest in
place: the embedding of a rotation of a Rust sub-slice
`l[i..j].rotate_…(1)`. -/
def rotate_slice (l : List α) (i j : Nat) (f : List α → List α) : List α :=
  l.take i ++ f ((l.drop i).take (j - i)) ++ l.drop j

/-- Translated from `move_app_profile` (`lib.rs` lines 1025-1091), pure
part: the update of `visible_browser_profiles` (the config persistence and
the UI notification are I/O side effects outside the decision core). -/
def move_app_profile (visible_browser_profiles : List CommonBrowserProfile)
    (unique_id : String) (move_to : MoveTo) : List CommonBrowserProfile :=
  match position (fun p => p.get_unique_id == unique_id) visible_browser_profiles with
  | none => visible_browser_profiles
  | some visible_profile_index =>
    match position (fun b => !b.has_priority_ordering) visible_browser_profiles with
    | none => visible_browser_profiles
    | some first_orderable_item_index =>
      match move_to with
      | MoveTo.UP =>
        if visible_profile_index ≤ first_orderable_item_index then
          visible_browser_profiles
        else
          rotate_slice visible_browser_profiles (visible_profile_index - 1)
            (visible_profile_index + 1) rotL1
      | MoveTo.TOP =>
        if visible_profile_index ≤ first_orderable_item_index then
          visible_browser_profiles
        else
          rotate_slice visible_browser_profiles first_orderable_item_index
            (visible_profile_index + 1) rotR1
      | MoveTo.DOWN =>
        if visible_profile_index = visible_browser_profiles.length - 1 then
          visible_browser_profiles
        else
          rotate_slice visible_browser_profiles visible_profile_index
            (visible_profile_index + 2) rotR1
      | MoveTo.BOTTOM =>
        if visible_profile_index = visible_browser_profiles.length - 1 then
          visible_browser_profiles
        else
          rotate_slice visible_browser_profiles visible_profile_index
            visible_browser_profiles.length rotL1

/-- Translated from `VisibleAndHiddenProfiles` (`lib.rs` lines 495-498). -/
structure VisibleAndHiddenProfiles where
  visible_browser_profiles : List CommonBrowserProfile
  hidden_browser_profiles : List CommonBrowserProfile

/-- Translated from `VisibleAndHiddenProfiles::get_browser_profile_by_id`
(`lib.rs` lines 501-523): search the visible sequence first, then the
hidden sequence. -/
def VisibleAndHiddenProfiles.get_browser_profile_by_id (s : VisibleAndHiddenProfiles)
    (unique_id : String) : Option CommonBrowserProfile :=
  match s.visible_browser_profiles.find? (fun p => p.get_unique_id == unique_id) with
  | some visible_profile => some visible_profile
  | none => s.hidden_browser_profiles.find? (fun p => p.get_unique_id == unique_id)

/-- Modelled from the spec: the slice of the persisted `Config` (from the
`utils` module, outside the embedded source) that the hide/restore
handlers touch — the explicit ranking of visible non-priority profile ids
and the hidden profile ids. -/
structure Config where
  profile_order : List String
  hidden_profiles : List String
  deriving DecidableEq

/-- Modelled from the spec: `config.hide_profile(id)`.  The id joins the
hidden set and leaves the ranking, since "after any mutation, the resulting
explicit rank of non-priority visible profiles (by id, in sequence order)
is the new persisted ranking" and a hidden profile is no longer visible. -/
def Config.hide_profile (c : Config) (unique_id : String) : Config :=
  { profile_order := c.profile_order.filter (fun x => !(x == unique_id)),
    hidden_profiles := c.hidden_profiles ++ [unique_id] }

/-- Modelled from the spec: `config.restore_profile(id)`.  The id leaves
the hidden set; the ranking is unchanged — the restored profile is
"appended at the end" of the visible sequence and is not yet explicitly
ranked (the spec's round-trip property places it after all existing
non-priority profiles, which requires it to stay absent from the
ranking). -/
def Config.restore_profile (c : Config) (unique_id : String) : Config :=
  { profile_order := c.profile_order,
    hidden_profiles := c.hidden_profiles.filter (fun x => !(x == unique_id)) }

/-- Translated from the `HideAppProfile` arm of `handle_messages_to_main`
(`lib.rs` lines 806-843), state-transition part: persist the hide in the
config, then move the first visible profile with the given id to the end of
the hidden sequence (a no-op when the id is not visible). -/
def hideAppProfile (s : VisibleAndHiddenProfiles) (c : Config) (unique_id : String) :
    VisibleAndHiddenProfiles × Config :=
  let c' := c.hide_profile unique_id
  match position (fun p => p.get_unique_id == unique_id) s.visible_browser_profiles with
  | none => (s, c')
  | some visible_profile_index =>
    match s.visible_browser_profiles[visible_profile_index]? with
    | none => (s, c')
    | some visible_profile =>
      ({ visible_browser_profiles := s.visible_browser_profiles.eraseIdx visible_profile_index,
         hidden_browser_profiles := s.hidden_browser_profiles ++ [visible_profile] }, c')

/-- Translated from the `RestoreAppProfile` arm of `handle_messages_to_main`
(`lib.rs` lines 844-889), state-transition part: persist the restore in the
config, then move the first hidden profile with the given id to the end of
the visible sequence and re-sort the visible sequence with the persisted
ranking (a no-op when the id is not hidden). -/
def restoreAppProfile (s : VisibleAndHiddenProfiles) (c : Config) (unique_id : String) :
    VisibleAndHiddenProfiles × Config :=
  let c' := c.restore_profile unique_id
  let profile_order := c'.profile_order
  match position (fun p => p.get_unique_id == unique_id) s.hidden_browser_profiles with
  | none => (s, c')
  | some hidden_profile_index =>
    match s.hidden_browser_profiles[hidden_profile_index]? with
    | none => (s, c')
    | some hidden_profile =>
      ({ visible_browser_profiles :=
           sort_browser_profiles (s.visible_browser_profiles ++ [hidden_profile]) profile_order,
         hidden_browser_profiles :=
           s.hidden_browser_profiles.eraseIdx hidden_profile_index }, c')

/-- The host operating system: the source branches on
`cfg!(target_os = …)`, chosen at build time. -/
inductive TargetOS where
  | macos
  | linux
  | windows
  deriving DecidableEq

/-- ASCII lower-casing of one character, as Rust's
`eq_ignore_ascii_case` performs it byte-wise. -/
def asciiLowerChar (c : Char) : Char :=
  if 'A' ≤ c ∧ c ≤ 'Z' then Char.ofNat (c.toNat + 32) else c

/-- Rust's `str::eq_ignore_ascii_case`: equality after ASCII
lower-casing. -/
def eq_ignore_ascii_case (a b : String) : Bool :=
  a.data.map asciiLowerChar == b.data.map asciiLowerChar

/-- Translated from `replace_url_placeholder` (`lib.rs` lines 208-219):
replace every argument that case-insensitively equals `%u` by the URL,
leaving all other arguments at their positions. -/
def replace_url_placeholder (command_arguments : List String) (app_url : String) :
    List String :=
  command_arguments.map (fun arg =>
    if eq_ignore_ascii_case arg "%u" then app_url else arg)

/-- Translated from `BrowserCommon::create_command` (`lib.rs` lines
115-205), with the host OS as an explicit parameter.  The result is the
executable plus its ordered argument list; `none` embeds the `unwrap`
panic on an empty command template (the source comments it as "guaranteed
to not be empty"). -/
def BrowserCommon.create_command (os : TargetOS) (self : BrowserCommon)
    (common_browser_profile : CommonBrowserProfile) (url : String)
    (incognito_mode : Bool) : Option (String × List String) :=
  let profile_args :=
    self.supported_app.profile_args common_browser_profile.profile_cli_arg_value
  let app_url :=
    self.supported_app.transform_url common_browser_profile.profile_cli_arg_value url
  match self.command with
  | [] => none
  | main_command :: command_arguments =>
    some (match os with
    | TargetOS.macos =>
      let args1 := ["-b", self.supported_app.app_id]
      let args2 :=
        if !self.supported_app.url_as_first_arg then args1 ++ [app_url]
        else args1 ++ ["-n"]
      let args3 := args2 ++ ["--args"] ++ profile_args
      let args4 :=
        if incognito_mode && self.supported_app.supports_incognito then
          args3 ++ self.supported_app.incognito_args
        else args3
      let args5 :=
        if self.supported_app.url_as_first_arg then args4 ++ [app_url] else args4
      ("open", args5)
    | TargetOS.linux =>
      let has_url_placeholder :=
        command_arguments.any (fun arg => eq_ignore_ascii_case arg "%u")
      let arguments :=
        if has_url_placeholder then replace_url_placeholder command_arguments app_url
        else command_arguments
      let args1 :=
        if incognito_mode && self.supported_app.supports_incognito then
          self.supported_app.incognito_args
        else []
      let args2 := args1 ++ arguments ++ profile_args
      let args3 := if !has_url_placeholder then args2 ++ [app_url] else args2
      (main_command, args3)
    | TargetOS.windows =>
      let args1 := profile_args
      let args2 :=
        if incognito_mode && self.supported_app.supports_incognito then
          args1 ++ self.supported_app.incognito_args
        else args1
      (main_command, args2 ++ [app_url]))

/-- Translated from `open_link_if_matching_rule` (`lib.rs` lines 989-1011),
pure part: resolve the rule, look the target profile up by id (visible or
hidden), and return the launch triple `(profile, url, incognito)` that the
source hands to `open_link`; `none` embeds "returned `false`, nothing
launched". -/
def open_link_if_matching_rule (self : OpeningRulesAndDefaultProfile)
    (parse : String → Option υ) (gm : String → υ → Bool) (ctx : UrlOpenContext)
    (s : VisibleAndHiddenProfiles) : Option (CommonBrowserProfile × String × Bool) :=
  match self.get_rule_for_source_app_and_url parse gm ctx with
  | some profile_and_options =>
    match s.get_browser_profile_by_id profile_and_options.profile with
    | some profile => some (profile, ctx.cleaned_url, profile_and_options.incognito)
    | none => none
  | none => none

/-- Lexicographic comparison of two natural-number keys, used to state that
`sort_browser_profiles` totally orders its output by (priority, rank). -/
def lexLe (k1 k2 : α → Nat) (x y : α) : Prop :=
  k1 x < k1 y ∨ (k1 x = k1 y ∧ k2 x ≤ k2 y)

/-- A supported app with no special capabilities, for the concrete
instances below. -/
def saPlain : SupportedApp :=
  { app_id := "id0", supports_incognito := false, url_as_first_arg := false,
    incognito_args := ["-i"], profile_args := fun _ => [],
    transform_url := fun _ u => u, restricted_hostname_matchers := [] }

/-- A concrete application with executable path `a`. -/
def appA : BrowserCommon :=
  { command := ["m"], executable_path := "a", display_name := "A", icon_path := "",
    supported_app := saPlain, profiles_type := InstalledAppProfilesType.RealProfiles }

/-- A concrete application with executable path `b`. -/
def appB : BrowserCommon :=
  { command := ["m"], executable_path := "b", display_name := "B", icon_path := "",
    supported_app := saPlain, profiles_type := InstalledAppProfilesType.RealProfiles }

/-- A priority-restricted profile (it has its own restricted-URL matcher);
unique id `a#p`. -/
def profP : CommonBrowserProfile :=
  { profile_cli_arg_value := "p", profile_cli_container_name := none,
    profile_name := "P", profile_icon := none,
    profile_restricted_url_matchers := [⟨"x.com"⟩], app := appA }

/-- A non-priority profile; unique id `b#q`. -/
def profQ : CommonBrowserProfile :=
  { profile_cli_arg_value := "q", profile_cli_container_name := none,
    profile_name := "Q", profile_icon := none,
    profile_restricted_url_matchers := [], app := appB }

/-- A second non-priority profile; unique id `b#r`. -/
def profR : CommonBrowserProfile :=
  { profile_cli_arg_value := "r", profile_cli_container_name := none,
    profile_name := "R", profile_icon := none,
    profile_restricted_url_matchers := [], app := appB }

/-- A concrete rule whose target is the profile id `b#q`. -/
def ruleToQ : OpeningRule :=
  { source_app := none, url_pattern := none, opener := some ⟨"b#q", false⟩ }

/-- A Safari-like supported app for the macOS builder: the URL is handed to
the generic opener (not an app launch argument), incognito supported. -/
def saMacSlot : SupportedApp :=
  { app_id := "idm", supports_incognito := true, url_as_first_arg := false,
    incognito_args := ["-i"], profile_args := fun a => ["-p", a],
    transform_url := fun _ u => u, restricted_hostname_matchers := [] }

/-- A supported app for the macOS builder that requires the URL as a launch
argument. -/
def saMacFirst : SupportedApp :=
  { app_id := "idm", supports_incognito := true, url_as_first_arg := true,
    incognito_args := ["-i"], profile_args := fun a => ["-p", a],
    transform_url := fun _ u => u, restricted_hostname_matchers := [] }

/-- A concrete macOS application built on `saMacSlot`. -/
def appMacSlot : BrowserCommon :=
  { command := ["m"], executable_path := "mac", display_name := "M", icon_path := "",
    supported_app := saMacSlot, profiles_type := InstalledAppProfilesType.RealProfiles }

/-- A concrete macOS application built on `saMacFirst`. -/
def appMacFirst : BrowserCommon :=
  { command := ["m"], executable_path := "mac", display_name := "M", icon_path := "",
    supported_app := saMacFirst, profiles_type := InstalledAppProfilesType.RealProfiles }

/-- The supported app of the claim's Linux example: no profile arguments,
identity URL transform. -/
def saLin : SupportedApp :=
  { app_id := "idl", supports_incognito := true, url_as_first_arg := false,
    incognito_args := ["-i"], profile_args := fun _ => [],
    transform_url := fun _ u => u, restricted_hostname_matchers := [] }

/-- The Linux application of the claim's example: command template
`["app", "--flag", "%u"]`. -/
def appLinPh : BrowserCommon :=
  { command := ["app", "--flag", "%u"], executable_path := "lin", display_name := "L",
    icon_path := "", supported_app := saLin,
    profiles_type := InstalledAppProfilesType.RealProfiles }

/-- A Linux application whose command template has no URL placeholder. -/
def appLinNoPh : BrowserCommon :=
  { command := ["app", "--flag"], executable_path := "lin2", display_name := "L2",
    icon_path := "", supported_app := saLin,
    profiles_type := InstalledAppProfilesType.RealProfiles }

/-- A supported app that declares no incognito support but still carries an
incognito argument list. -/
def saNoIncog : SupportedApp :=
  { app_id := "idw", supports_incognito := false, url_as_first_arg := false,
    incognito_args := ["-i"], profile_args := fun _ => ["-p"],
    transform_url := fun _ u => u, restricted_hostname_matchers := [] }

/-- A concrete application built on `saNoIncog`. -/
def appNoIncog : BrowserCommon :=
  { command := ["w"], executable_path := "win", display_name := "W", icon_path := "",
    supported_app := saNoIncog, profiles_type := InstalledAppProfilesType.RealProfiles }

/-- A profile used to exercise the command builder (only its CLI argument
value reaches the builder). -/
def profM : CommonBrowserProfile :=
  { profile_cli_arg_value := "pm", profile_cli_container_name := none,
    profile_name := "M", profile_icon := none,
    profile_restricted_url_matchers := [], app := appA }

theorem position_eq_none (pred : α → Bool) (l : List α)
    (h : ∀ a ∈ l, pred a = false) : position pred l = none := by
  induction l with
  | nil => rfl
  | cons a as ih =>
    have ha := h a (List.mem_cons_self a as)
    simp [position, ha, ih (fun b hb => h b (List.mem_cons_of_mem a hb))]

theorem position_lt_length (pred : α → Bool) (l : List α) (i : Nat)
    (h : position pred l = some i) : i < l.length := by
  induction l generalizing i with
  | nil => simp [position] at h
  | cons a as ih =>
    rw [position] at h
    by_cases hp : pred a = true
    · rw [if_pos hp] at h
      have : i = 0 := (Option.some_inj.mp h).symm
      simp [this]
    · rw [if_neg hp, Option.map_eq_some'] at h
      obtain ⟨j, hj, hij⟩ := h
      have := ih j hj
      simp only [List.length_cons]
      omega

theorem position_append_of_none (pred : α → Bool) (A B : List α)
    (h : ∀ a ∈ A, pred a = false) :
    position pred (A ++ B) = (position pred B).map (· + A.length) := by
  induction A with
  | nil => simp
  | cons a A ih =>
    have ha := h a (List.mem_cons_self a A)
    have ihh := ih (fun b hb => h b (List.mem_cons_of_mem a hb))
    rw [List.cons_append, position, if_neg (by simp [ha]), ihh, Option.map_map]
    cases position pred B with
    | none => rfl
    | some j =>
      simp only [Option.map_some', Function.comp, List.length_cons, Option.some_inj]
      omega

theorem position_append_first (pred : α → Bool) (A : List α) (x : α) (B : List α)
    (hA : ∀ a ∈ A, pred a = false) (hx : pred x = true) :
    position pred (A ++ x :: B) = some A.length := by
  have := position_append_of_none pred A (x :: B) hA
  rw [this, position, if_pos hx]
  simp

theorem getElem?_append_length (A : List α) (x : α) (B : List α) :
    (A ++ x :: B)[A.length]? = some x := by
  induction A with
  | nil => simp
  | cons a A ih => simpa using ih

theorem eraseIdx_append_length (A : List α) (x : α) (B : List α) :
    (A ++ x :: B).eraseIdx A.length = A ++ B := by
  induction A with
  | nil => rfl
  | cons a A ih => simp [List.eraseIdx, ih]

theorem mem_insertByKey (k : α → Nat) (a x : α) (l : List α) :
    x ∈ insertByKey k a l ↔ x = a ∨ x ∈ l := by
  induction l with
  | nil => simp [insertByKey]
  | cons b bs ih =>
    by_cases hk : k a ≤ k b
    · simp [insertByKey, hk]
    · simp [insertByKey, hk, ih]
      tauto

theorem perm_insertByKey (k : α → Nat) (a : α) (l : List α) :
    List.Perm (insertByKey k a l) (a :: l) := by
  induction l with
  | nil => exact List.Perm.refl _
  | cons b bs ih =>
    by_cases hk : k a ≤ k b
    · simp [insertByKey, hk]
    · simp only [insertByKey, hk, if_false]
      exact (ih.cons b).trans (List.Perm.swap a b bs)

theorem perm_sortByKey (k : α → Nat) (l : List α) :
    List.Perm (sortByKey k l) l := by
  induction l with
  | nil => exact List.Perm.refl _
  | cons a as ih =>
    exact (perm_insertByKey k a (sortByKey k as)).trans (ih.cons a)

theorem mem_sortByKey (k : α → Nat) (x : α) (l : List α) :
    x ∈ sortByKey k l ↔ x ∈ l :=
  (perm_sortByKey k l).mem_iff

theorem filter_insertByKey (k : α → Nat) (q : α → Bool) (a : α) (l : List α)
    (hq : ∀ x y, q x = true → q y = true → k x = k y) :
    (insertByKey k a l).filter q =
      if q a then a :: l.filter q else l.filter q := by
  induction l with
  | nil => simp [insertByKey, List.filter_cons]
  | cons b bs ih =>
    by_cases hk : k a ≤ k b
    · rw [insertByKey, if_pos hk]
      cases hqa : q a <;> simp [hqa, List.filter_cons]
    · cases hqb : q b with
      | false => simp [insertByKey, hk, List.filter_cons, hqb, ih]
      | true =>
        cases hqa : q a with
        | false => simp [insertByKey, hk, List.filter_cons, hqb, hqa, ih]
        | true => exact absurd (hq a b hqa hqb ▸ Nat.le_refl (k a)) hk

theorem filter_sortByKey (k : α → Nat) (q : α → Bool) (l : List α)
    (hq : ∀ x y, q x = true → q y = true → k x = k y) :
    (sortByKey k l).filter q = l.filter q := by
  induction l with
  | nil => rfl
  | cons a as ih =>
    rw [sortByKey, filter_insertByKey k q a (sortByKey k as) hq, ih, List.filter_cons]

theorem pairwise_le_insertByKey (k : α → Nat) (a : α) (l : List α)
    (h : l.Pairwise (fun x y => k x ≤ k y)) :
    (insertByKey k a l).Pairwise (fun x y => k x ≤ k y) := by
  induction l with
  | nil => simp [insertByKey]
  | cons b bs ih =>
    rw [List.pairwise_cons] at h
    obtain ⟨hb, hbs⟩ := h
    by_cases hk : k a ≤ k b
    · simp only [insertByKey, hk, if_true]
      rw [List.pairwise_cons]
      refine ⟨?_, List.pairwise_cons.mpr ⟨hb, hbs⟩⟩
      intro x hx
      rcases List.mem_cons.mp hx with hx | hx
      · exact hx ▸ hk
      · exact Nat.le_trans hk (hb x hx)
    · simp only [insertByKey, hk, if_false]
      rw [List.pairwise_cons]
      refine ⟨?_, ih hbs⟩
      intro x hx
      rcases (mem_insertByKey k a x bs).mp hx with hx | hx
      · exact hx ▸ Nat.le_of_lt (Nat.lt_of_not_le hk)
      · exact hb x hx

theorem pairwise_le_sortByKey (k : α → Nat) (l : List α) :
    (sortByKey k l).Pairwise (fun x y => k x ≤ k y) := by
  induction l with
  | nil => simp [sortByKey]
  | cons a as ih => exact pairwise_le_insertByKey k a (sortByKey k as) ih

theorem lexLe_of_le_of_le {k1 k2 : α → Nat} {x y : α}
    (h1 : k1 x ≤ k1 y) (h2 : k2 x ≤ k2 y) : lexLe k1 k2 x y := by
  rcases Nat.lt_or_ge (k1 x) (k1 y) with h | h
  · exact Or.inl h
  · exact Or.inr ⟨Nat.le_antisymm h1 h, h2⟩

theorem lexLe_k1_le {k1 k2 : α → Nat} {x y : α} (h : lexLe k1 k2 x y) :
    k1 x ≤ k1 y := by
  rcases h with h | ⟨h, _⟩
  · exact Nat.le_of_lt h
  · exact Nat.le_of_eq h

theorem pairwise_lex_insertByKey (k1 k2 : α → Nat) (a : α) (l : List α)
    (hl : l.Pairwise (lexLe k1 k2)) (ha : ∀ b ∈ l, k2 a ≤ k2 b) :
    (insertByKey k1 a l).Pairwise (lexLe k1 k2) := by
  induction l with
  | nil => simp [insertByKey]
  | cons b bs ih =>
    rw [List.pairwise_cons] at hl
    obtain ⟨hb, hbs⟩ := hl
    by_cases hk : k1 a ≤ k1 b
    · rw [insertByKey, if_pos hk, List.pairwise_cons]
      refine ⟨?_, List.pairwise_cons.mpr ⟨hb, hbs⟩⟩
      intro x hx
      rcases List.mem_cons.mp hx with hx | hx
      · exact hx ▸ lexLe_of_le_of_le hk (ha b (List.mem_cons_self b bs))
      · exact lexLe_of_le_of_le (Nat.le_trans hk (lexLe_k1_le (hb x hx)))
          (ha x (List.mem_cons_of_mem b hx))
    · rw [insertByKey, if_neg hk, List.pairwise_cons]
      refine ⟨?_, ih hbs (fun x hx => ha x (List.mem_cons_of_mem b hx))⟩
      intro x hx
      rcases (mem_insertByKey k1 a x bs).mp hx with hx | hx
      · exact hx ▸ Or.inl (Nat.lt_of_not_le hk)
      · exact hb x hx

theorem pairwise_lex_sortByKey (k1 k2 : α → Nat) (l : List α)
    (hl : l.Pairwise (fun x y => k2 x ≤ k2 y)) :
    (sortByKey k1 l).Pairwise (lexLe k1 k2) := by
  induction l with
  | nil => simp [sortByKey]
  | cons a as ih =>
    rw [List.pairwise_cons] at hl
    obtain ⟨ha, has⟩ := hl
    rw [sortByKey]
    refine pairwise_lex_insertByKey k1 k2 a (sortByKey k1 as) (ih has) ?_
    intro b hb
    exact ha b ((mem_sortByKey k1 b as).mp hb)

theorem insertByKey_append_max (k : α → Nat) (a p : α) (m : List α)
    (hk : k a ≤ k p) :
    insertByKey k a (m ++ [p]) = insertByKey k a m ++ [p] := by
  induction m with
  | nil => simp [insertByKey, hk]
  | cons b bs ih =>
    by_cases hb : k a ≤ k b
    · simp [insertByKey, hb]
    · simp [insertByKey, hb, ih]

theorem sortByKey_append_max (k : α → Nat) (p : α) (m : List α)
    (hm : ∀ q ∈ m, k q ≤ k p) :
    sortByKey k (m ++ [p]) = sortByKey k m ++ [p] := by
  induction m with
  | nil => simp [sortByKey, insertByKey]
  | cons a as ih =>
    rw [List.cons_append, sortByKey, ih (fun q hq => hm q (List.mem_cons_of_mem a hq)),
      insertByKey_append_max k a p (sortByKey k as) (hm a (List.mem_cons_self a as)),
      sortByKey]

theorem order_key_le_length (profile_order : List String) (p : CommonBrowserProfile) :
    order_key profile_order p ≤ profile_order.length := by
  rw [order_key]
  cases h : position (fun x => x == p.get_unique_id) profile_order with
  | none => exact Nat.le_refl _
  | some i => exact Nat.le_of_lt (position_lt_length _ _ _ h)

theorem priority_key_le_one (p : CommonBrowserProfile) : priority_key p ≤ 1 := by
  rw [priority_key]
  by_cases h : p.has_priority_ordering = true <;> simp [h]

theorem rotL1_perm (l : List α) : List.Perm (rotL1 l) l := by
  cases l with
  | nil => exact List.Perm.refl _
  | cons x xs => exact List.perm_append_singleton x xs

theorem rotR1_perm (l : List α) : List.Perm (rotR1 l) l := by
  rw [rotR1]
  exact ((List.reverse_perm _).trans (rotL1_perm l.reverse)).trans (List.reverse_perm l)

theorem rotate_slice_decomp (l : List α) (i j : Nat) (hij : i ≤ j) :
    l.take i ++ ((l.drop i).take (j - i) ++ l.drop j) = l := by
  have h1 : l.drop j = (l.drop i).drop (j - i) := by
    rw [List.drop_drop]
    congr 1
    omega
  rw [h1, List.take_append_drop, List.take_append_drop]

theorem rotate_slice_perm (l : List α) (i j : Nat) (f : List α → List α)
    (hij : i ≤ j) (hf : ∀ m : List α, List.Perm (f m) m) :
    List.Perm (rotate_slice l i j f) l := by
  have hstep : List.Perm (rotate_slice l i j f)
      (l.take i ++ ((l.drop i).take (j - i) ++ l.drop j)) := by
    rw [rotate_slice, List.append_assoc]
    exact (List.Perm.refl _).append ((hf _).append (List.Perm.refl _))
  rw [rotate_slice_decomp l i j hij] at hstep
  exact hstep

theorem rotate_slice_append (P N : List α) (i j : Nat) (f : List α → List α)
    (hP : P.length ≤ i) (hij : i ≤ j) :
    rotate_slice (P ++ N) i j f
      = P ++ rotate_slice N (i - P.length) (j - P.length) f := by
  have hPj : P.length ≤ j := Nat.le_trans hP hij
  have ht : (P ++ N).take i = P ++ N.take (i - P.length) := by
    rw [List.take_append_eq_append_take, List.take_of_length_le hP]
  have hdi : (P ++ N).drop i = N.drop (i - P.length) := by
    rw [List.drop_append_eq_append_drop, List.drop_eq_nil_of_le hP, List.nil_append]
  have hdj : (P ++ N).drop j = N.drop (j - P.length) := by
    rw [List.drop_append_eq_append_drop, List.drop_eq_nil_of_le hPj, List.nil_append]
  have harith : j - i = (j - P.length) - (i - P.length) := by omega
  rw [rotate_slice, rotate_slice, ht, hdi, hdj, harith]
  simp [List.append_assoc]

theorem resolve_loop_first_match (gm : String → υ → Bool) (u : υ) (src : Option String)
    (d : Option ProfileAndOptions) (A : List OpeningRule) (r : OpeningRule)
    (B : List OpeningRule) (hA : ∀ q ∈ A, rule_matches gm q u src = false)
    (hr : rule_matches gm r u src = true) :
    resolve_loop gm u src d (A ++ r :: B) = r.opener := by
  induction A with
  | nil => simp [resolve_loop, hr]
  | cons q A ih =>
    have hq : rule_matches gm q u src = false := hA q (List.mem_cons_self q A)
    have hA' : ∀ q' ∈ A, rule_matches gm q' u src = false :=
      fun q' hq' => hA q' (List.mem_cons_of_mem q hq')
    simp [resolve_loop, hq, ih hA']

theorem resolve_loop_no_match (gm : String → υ → Bool) (u : υ) (src : Option String)
    (d : Option ProfileAndOptions) (l : List OpeningRule)
    (hl : ∀ q ∈ l, rule_matches gm q u src = false) :
    resolve_loop gm u src d l = d := by
  induction l with
  | nil => cases d <;> simp [resolve_loop]
  | cons q l ih =>
    have hq : rule_matches gm q u src = false := hl q (List.mem_cons_self q l)
    have hl' : ∀ q' ∈ l, rule_matches gm q' u src = false :=
      fun q' hq' => hl q' (List.mem_cons_of_mem q hq')
    simp [resolve_loop, hq, ih hl']

/-- C1: rule resolution iterates the ordered rule list and returns the
target of the first rule whose URL predicate (vacuously true without a URL
pattern) and source-app predicate (vacuously true without a source-app
filter, otherwise exact string equality with the context's source app, and
false when the context has no source app) both hold, consulting no further
rule; when no rule matches it returns the configured default target if one
exists, else `none`. -/
theorem rule_resolution_first_match_wins_else_default
    (self : OpeningRulesAndDefaultProfile) (parse : String → Option υ)
    (gm : String → υ → Bool) (ctx : UrlOpenContext) (u : υ)
    (hparse : parse ctx.cleaned_url = some u) :
    (∀ A r B, self.opening_rules = A ++ r :: B →
      (∀ q ∈ A, rule_matches gm q u ctx.source_app_maybe = false) →
      rule_matches gm r u ctx.source_app_maybe = true →
      self.get_rule_for_source_app_and_url parse gm ctx = r.opener) ∧
    ((∀ q ∈ self.opening_rules, rule_matches gm q u ctx.source_app_maybe = false) →
      self.get_rule_for_source_app_and_url parse gm ctx = self.default_profile) ∧
    (∀ q, q.url_pattern = none → url_matches gm q u = true) ∧
    (∀ q pat, q.url_pattern = some pat → url_matches gm q u = gm pat u) ∧
    (∀ q, q.source_app = none → source_app_matches q ctx.source_app_maybe = true) ∧
    (∀ q sa, q.source_app = some sa → ctx.source_app_maybe = none →
      source_app_matches q ctx.source_app_maybe = false) ∧
    (∀ q sa asa, q.source_app = some sa → ctx.source_app_maybe = some asa →
      source_app_matches q ctx.source_app_maybe = (sa == asa)) := by
  refine ⟨?_, ?_, ?_, ?_, ?_, ?_, ?_⟩
  · intro A r B hsplit hA hr
    rw [OpeningRulesAndDefaultProfile.get_rule_for_source_app_and_url, hparse, hsplit]
    exact resolve_loop_first_match gm u ctx.source_app_maybe self.default_profile A r B hA hr
  · intro hnone
    rw [OpeningRulesAndDefaultProfile.get_rule_for_source_app_and_url, hparse]
    exact resolve_loop_no_match gm u ctx.source_app_maybe self.default_profile
      self.opening_rules hnone
  · intro q hq; simp [url_matches, hq]
  · intro q pat hq; simp [url_matches, hq]
  · intro q hq; simp [source_app_matches, hq]
  · intro q sa hq hctx; simp [source_app_matches, hq, hctx]
  · intro q sa asa hq hctx; simp [source_app_matches, hq, hctx]

/-- C1 witness: with rules `[ruleFromA, ruleAny]` and a request from source
`"B"`, the first rule fails its source-app predicate and the catch-all wins,
so resolution returns the catch-all's target rather than the default. -/
theorem rule_resolution_first_match_wins_else_default_witness :
    OpeningRulesAndDefaultProfile.get_rule_for_source_app_and_url
      ⟨[ruleFromA, ruleAny], some ⟨"p3", false⟩⟩ parseOk gmAny
      ⟨"https://foo.x.com", some "B"⟩ = some ⟨"p2", true⟩ := by
  have h := (rule_resolution_first_match_wins_else_default
    ⟨[ruleFromA, ruleAny], some ⟨"p3", false⟩⟩ parseOk gmAny
    ⟨"https://foo.x.com", some "B"⟩ () (by decide)).1
    [ruleFromA] ruleAny [] rfl (by decide) (by decide)
  exact h.trans (by decide)

/-- C2: when the context URL fails to parse, resolution returns `none`
regardless of the rules, the configured default, and the source app: it is
treated as "no match, no default", not as an error. -/
theorem unparsable_url_resolves_to_none
    (self : OpeningRulesAndDefaultProfile) (parse : String → Option υ)
    (gm : String → υ → Bool) (ctx : UrlOpenContext)
    (hparse : parse ctx.cleaned_url = none) :
    self.get_rule_for_source_app_and_url parse gm ctx = none := by
  rw [OpeningRulesAndDefaultProfile.get_rule_for_source_app_and_url, hparse]

/-- C2 witness: an unparsable URL resolves to `none` even though a
catch-all rule and a default are both configured. -/
theorem unparsable_url_resolves_to_none_witness :
    OpeningRulesAndDefaultProfile.get_rule_for_source_app_and_url
      ⟨[ruleAny], some ⟨"p3", false⟩⟩ parseFail gmAny ⟨"not a url", some "A"⟩ = none :=
  unparsable_url_resolves_to_none ⟨[ruleAny], some ⟨"p3", false⟩⟩ parseFail gmAny
    ⟨"not a url", some "A"⟩ (by decide)

/-- C9: when the first rule whose two predicates hold carries no target,
resolution returns `none` immediately: later rules (even matching ones) are
not consulted and the configured default is not returned. -/
theorem first_match_without_opener_returns_none
    (self : OpeningRulesAndDefaultProfile) (parse : String → Option υ)
    (gm : String → υ → Bool) (ctx : UrlOpenContext) (u : υ)
    (A : List OpeningRule) (r : OpeningRule) (B : List OpeningRule)
    (hparse : parse ctx.cleaned_url = some u)
    (hsplit : self.opening_rules = A ++ r :: B)
    (hA : ∀ q ∈ A, rule_matches gm q u ctx.source_app_maybe = false)
    (hr : rule_matches gm r u ctx.source_app_maybe = true)
    (hop : r.opener = none) :
    self.get_rule_for_source_app_and_url parse gm ctx = none := by
  rw [OpeningRulesAndDefaultProfile.get_rule_for_source_app_and_url, hparse, hsplit]
  show resolve_loop gm u ctx.source_app_maybe self.default_profile (A ++ r :: B) = none
  rw [resolve_loop_first_match gm u ctx.source_app_maybe self.default_profile A r B hA hr]
  exact hop

/-- C9 witness: the opener-less catch-all matches first, so resolution
returns `none` although a later rule would match with a target and a
default is configured. -/
theorem first_match_without_opener_returns_none_witness :
    OpeningRulesAndDefaultProfile.get_rule_for_source_app_and_url
      ⟨[ruleNoOpener, ruleAny], some ⟨"p3", false⟩⟩ parseOk gmAny
      ⟨"https://foo.x.com", some "A"⟩ = none :=
  first_match_without_opener_returns_none
    ⟨[ruleNoOpener, ruleAny], some ⟨"p3", false⟩⟩ parseOk gmAny
    ⟨"https://foo.x.com", some "A"⟩ () [] ruleNoOpener [ruleAny]
    (by decide) rfl (by intro q hq; cases hq) (by decide) rfl

/-- C3: `sort_browser_profiles` is a stable two-key sort of the visible
profiles: the output is a permutation of the input, it is ordered by the
lexicographic key (priority-restricted first, then position in the
ranking), profiles with equal keys keep their relative input order (the
per-key filters coincide), and the secondary key is the id's position in
the ranking with ids absent from the ranking getting the maximal key
`ranking.length` (hence sorting after all ranked ids). -/
theorem sort_browser_profiles_stable_two_key_sort
    (profiles : List CommonBrowserProfile) (ranking : List String) :
    List.Perm (sort_browser_profiles profiles ranking) profiles ∧
    (sort_browser_profiles profiles ranking).Pairwise
      (lexLe priority_key (order_key ranking)) ∧
    (∀ b n, (sort_browser_profiles profiles ranking).filter
        (fun p => (priority_key p == b) && (order_key ranking p == n))
      = profiles.filter
        (fun p => (priority_key p == b) && (order_key ranking p == n))) ∧
    (∀ p i, position (fun x => x == p.get_unique_id) ranking = some i →
      order_key ranking p = i ∧ i < ranking.length) ∧
    (∀ p, position (fun x => x == p.get_unique_id) ranking = none →
      order_key ranking p = ranking.length) ∧
    (∀ p, priority_key p = if p.has_priority_ordering then 0 else 1) := by
  refine ⟨?_, ?_, ?_, ?_, ?_, ?_⟩
  · exact (perm_sortByKey priority_key _).trans (perm_sortByKey (order_key ranking) profiles)
  · exact pairwise_lex_sortByKey priority_key (order_key ranking) _
      (pairwise_le_sortByKey (order_key ranking) profiles)
  · intro b n
    rw [sort_browser_profiles,
      filter_sortByKey priority_key _ _
        (fun x y hx hy => by
          have hxb : priority_key x = b := by
            have := (Bool.and_eq_true _ _).mp hx
            simpa using this.1
          have hyb : priority_key y = b := by
            have := (Bool.and_eq_true _ _).mp hy
            simpa using this.1
          rw [hxb, hyb]),
      filter_sortByKey (order_key ranking) _ _
        (fun x y hx hy => by
          have hxn : order_key ranking x = n := by
            have := (Bool.and_eq_true _ _).mp hx
            simpa using this.2
          have hyn : order_key ranking y = n := by
            have := (Bool.and_eq_true _ _).mp hy
            simpa using this.2
          rw [hxn, hyn])]
  · intro p i h
    exact ⟨by rw [order_key, h], position_lt_length _ _ _ h⟩
  · intro p h
    rw [order_key, h]
  · intro p
    rfl

/-- C3 witness: in the ranking `["b#q"]` the ranked profile `profQ` gets
secondary key `0` (its position, below the ranking's length), as the sort
theorem's key-semantics clause states. -/
theorem sort_browser_profiles_stable_two_key_sort_witness :
    order_key ["b#q"] profQ = 0 ∧ 0 < List.length ["b#q"] :=
  (sort_browser_profiles_stable_two_key_sort [profP, profQ] ["b#q"]).2.2.2.1
    profQ 0 (by decide)

/-- C4 counterexample: the claim fails as stated.  `move_app_profile`
guards only UP and TOP against the priority prefix; moving the
priority-restricted profile `profP` DOWN is not blocked, so it is swapped
past the non-priority profile `profQ` and the priority profiles no longer
occupy the same prefix (the result starts with `b#q`, not `a#p`). -/
theorem move_app_profile_priority_moved_down_cex :
    (move_app_profile [profP, profQ] "a#p" MoveTo.DOWN).map
        CommonBrowserProfile.get_unique_id = ["b#q", "a#p"] ∧
    ([profP, profQ].map CommonBrowserProfile.get_unique_id = ["a#p", "b#q"]) ∧
    profP.has_priority_ordering = true ∧
    profQ.has_priority_ordering = false := by
  refine ⟨by decide, by decide, by decide, by decide⟩

/-- C4 (amended): for every visible sequence in which the
priority-restricted profiles form a prefix, every direction, and every id
that does not belong to one of the priority profiles, the move operation
keeps the priority profiles as the same fixed prefix in the same order and
only permutes the non-priority suffix.  (The original claim quantified over
every profile id; it fails for the id of a priority profile moved DOWN or
BOTTOM — see the counterexample.) -/
theorem move_app_profile_preserves_priority_prefix
    (P N : List CommonBrowserProfile) (unique_id : String) (move_to : MoveTo)
    (hP : ∀ p ∈ P, p.has_priority_ordering = true)
    (hN : ∀ p ∈ N, p.has_priority_ordering = false)
    (hid : ∀ p ∈ P, p.get_unique_id ≠ unique_id) :
    ∃ N', move_app_profile (P ++ N) unique_id move_to = P ++ N' ∧
      List.Perm N' N := by
  have hPpred : ∀ p ∈ P, (p.get_unique_id == unique_id) = false := by
    intro p hp
    exact beq_eq_false_iff_ne.mpr (hid p hp)
  have hpos := position_append_of_none
    (fun p => p.get_unique_id == unique_id) P N hPpred
  cases hN0 : position (fun p => p.get_unique_id == unique_id) N with
  | none =>
    refine ⟨N, ?_, List.Perm.refl N⟩
    rw [move_app_profile, hpos, hN0]
    rfl
  | some i0 =>
    have hi0 : i0 < N.length := position_lt_length _ _ _ hN0
    obtain ⟨n0, N1, hNsplit⟩ : ∃ n0 N1, N = n0 :: N1 := by
      cases N with
      | nil => simp at hi0
      | cons n0 N1 => exact ⟨n0, N1, rfl⟩
    have hn0 : n0.has_priority_ordering = false :=
      hN n0 (by rw [hNsplit]; exact List.mem_cons_self n0 N1)
    have hPpred2 : ∀ p ∈ P, (!p.has_priority_ordering) = false := by
      intro p hp
      rw [hP p hp]
      rfl
    have hpos2 := position_append_of_none
      (fun b => !b.has_priority_ordering) P N hPpred2
    have hN2 : position (fun b : CommonBrowserProfile => !b.has_priority_ordering) N
        = some 0 := by
      rw [hNsplit, position, if_pos (by rw [hn0]; rfl)]
    have hlen : (P ++ N).length = P.length + N.length := List.length_append P N
    cases move_to with
    | UP =>
      by_cases h0 : i0 = 0
      · refine ⟨N, ?_, List.Perm.refl N⟩
        simp only [move_app_profile, hpos, hN0, hpos2, hN2, Option.map_some']
        rw [if_pos (by omega)]
      · refine ⟨rotate_slice N (i0 + P.length - 1 - P.length)
          (i0 + P.length + 1 - P.length) rotL1, ?_,
          rotate_slice_perm N _ _ rotL1 (by omega) rotL1_perm⟩
        simp only [move_app_profile, hpos, hN0, hpos2, hN2, Option.map_some']
        rw [if_neg (by omega)]
        exact rotate_slice_append P N _ _ rotL1 (by omega) (by omega)
    | TOP =>
      by_cases h0 : i0 = 0
      · refine ⟨N, ?_, List.Perm.refl N⟩
        simp only [move_app_profile, hpos, hN0, hpos2, hN2, Option.map_some']
        rw [if_pos (by omega)]
      · refine ⟨rotate_slice N (0 + P.length - P.length)
          (i0 + P.length + 1 - P.length) rotR1, ?_,
          rotate_slice_perm N _ _ rotR1 (by omega) rotR1_perm⟩
        simp only [move_app_profile, hpos, hN0, hpos2, hN2, Option.map_some']
        rw [if_neg (by omega)]
        exact rotate_slice_append P N _ _ rotR1 (by omega) (by omega)
    | DOWN =>
      by_cases hlast : i0 + P.length = (P ++ N).length - 1
      · refine ⟨N, ?_, List.Perm.refl N⟩
        simp only [move_app_profile, hpos, hN0, hpos2, hN2, Option.map_some']
        rw [if_pos hlast]
      · refine ⟨rotate_slice N (i0 + P.length - P.length)
          (i0 + P.length + 2 - P.length) rotR1, ?_,
          rotate_slice_perm N _ _ rotR1 (by omega) rotR1_perm⟩
        simp only [move_app_profile, hpos, hN0, hpos2, hN2, Option.map_some']
        rw [if_neg hlast]
        exact rotate_slice_append P N _ _ rotR1 (by omega) (by omega)
    | BOTTOM =>
      by_cases hlast : i0 + P.length = (P ++ N).length - 1
      · refine ⟨N, ?_, List.Perm.refl N⟩
        simp only [move_app_profile, hpos, hN0, hpos2, hN2, Option.map_some']
        rw [if_pos hlast]
      · refine ⟨rotate_slice N (i0 + P.length - P.length)
          ((P ++ N).length - P.length) rotL1, ?_,
          rotate_slice_perm N _ _ rotL1 (by omega) rotL1_perm⟩
        simp only [move_app_profile, hpos, hN0, hpos2, hN2, Option.map_some']
        rw [if_neg hlast]
        exact rotate_slice_append P N _ _ rotL1 (by omega) (by omega)

/-- C4 witness: moving the non-priority profile `profR` UP below the
priority profile `profP` leaves the priority prefix `[profP]` in place. -/
theorem move_app_profile_preserves_priority_prefix_witness :
    (move_app_profile [profP, profQ, profR] "b#r" MoveTo.UP).take 1 = [profP] := by
  obtain ⟨N', hEq, _⟩ := move_app_profile_preserves_priority_prefix
    [profP] [profQ, profR] "b#r" MoveTo.UP
    (by intro p hp; rw [List.mem_singleton] at hp; subst hp; decide)
    (by
      intro p hp
      rcases List.mem_cons.mp hp with h | h
      · subst h; decide
      · rw [List.mem_singleton] at h; subst h; decide)
    (by intro p hp; rw [List.mem_singleton] at hp; subst hp; decide)
  rw [show ([profP] ++ [profQ, profR] : List CommonBrowserProfile)
      = [profP, profQ, profR] from rfl] at hEq
  rw [hEq]
  simp [List.take_append_eq_append_take]

/-- C8 counterexample: the claim fails as stated.  Hiding and then
restoring the priority-restricted profile `profP` re-sorts it into the
priority prefix, BEFORE the existing non-priority visible profile `profQ`
— not "after all existing non-priority visible profiles". -/
theorem hide_then_restore_priority_cex :
    (restoreAppProfile (hideAppProfile ⟨[profP, profQ], []⟩ ⟨["b#q"], []⟩ "a#p").1
        (hideAppProfile ⟨[profP, profQ], []⟩ ⟨["b#q"], []⟩ "a#p").2
        "a#p").1.visible_browser_profiles.map CommonBrowserProfile.get_unique_id
      = ["a#p", "b#q"] ∧
    profP.has_priority_ordering = true ∧
    profQ.has_priority_ordering = false := by
  refine ⟨by decide, by decide, by decide⟩

/-- C8 (amended): hiding a visible NON-priority profile and then restoring
it leaves it visible as the last element of the visible sequence — after
all existing non-priority visible profiles, not necessarily at its original
position — and removes it from the hidden sequence.  (The original claim
quantified over every visible profile id; for a priority-restricted profile
the restore re-sort pins it into the priority prefix, before the
non-priority profiles — see the counterexample.) -/
theorem hide_then_restore_appends_non_priority
    (A B H : List CommonBrowserProfile) (p : CommonBrowserProfile)
    (c : Config) (unique_id : String)
    (hpid : p.get_unique_id = unique_id)
    (hA : ∀ q ∈ A, q.get_unique_id ≠ unique_id)
    (hH : ∀ q ∈ H, q.get_unique_id ≠ unique_id)
    (hpr : p.has_priority_ordering = false) :
    (∃ L, ((restoreAppProfile (hideAppProfile ⟨A ++ p :: B, H⟩ c unique_id).1
        (hideAppProfile ⟨A ++ p :: B, H⟩ c unique_id).2 unique_id).1).visible_browser_profiles
      = L ++ [p]) ∧
    ((restoreAppProfile (hideAppProfile ⟨A ++ p :: B, H⟩ c unique_id).1
        (hideAppProfile ⟨A ++ p :: B, H⟩ c unique_id).2 unique_id).1).hidden_browser_profiles
      = H := by
  have hppred : (p.get_unique_id == unique_id) = true := by
    rw [hpid]
    exact beq_self_eq_true unique_id
  have hpos1 : position (fun q => q.get_unique_id == unique_id) (A ++ p :: B)
      = some A.length :=
    position_append_first _ A p B
      (fun q hq => beq_eq_false_iff_ne.mpr (hA q hq)) hppred
  have h1 : hideAppProfile ⟨A ++ p :: B, H⟩ c unique_id
      = (⟨A ++ B, H ++ [p]⟩, c.hide_profile unique_id) := by
    simp only [hideAppProfile, hpos1, getElem?_append_length, eraseIdx_append_length]
  have hpos2 : position (fun q => q.get_unique_id == unique_id) (H ++ [p])
      = some H.length :=
    position_append_first _ H p []
      (fun q hq => beq_eq_false_iff_ne.mpr (hH q hq)) hppred
  have h2 : (H ++ [p]).eraseIdx H.length = H := by
    rw [eraseIdx_append_length, List.append_nil]
  have hrest : (restoreAppProfile ⟨A ++ B, H ++ [p]⟩ (c.hide_profile unique_id) unique_id).1
      = ⟨sort_browser_profiles ((A ++ B) ++ [p])
          ((Config.restore_profile (c.hide_profile unique_id) unique_id).profile_order),
         H⟩ := by
    simp only [restoreAppProfile, hpos2, getElem?_append_length, h2]
  have hOp : position (fun x => x == p.get_unique_id)
      ((Config.restore_profile (c.hide_profile unique_id) unique_id).profile_order)
      = none := by
    refine position_eq_none _ _ ?_
    intro x hx
    have hxne : (!(x == unique_id)) = true := (List.mem_filter.mp hx).2
    rw [hpid]
    simpa using hxne
  have hkey : order_key
      ((Config.restore_profile (c.hide_profile unique_id) unique_id).profile_order) p
      = ((Config.restore_profile (c.hide_profile unique_id) unique_id).profile_order).length := by
    rw [order_key, hOp]
  have hpk : priority_key p = 1 := by
    simp [priority_key, hpr]
  have hsort : sort_browser_profiles ((A ++ B) ++ [p])
      ((Config.restore_profile (c.hide_profile unique_id) unique_id).profile_order)
      = sort_browser_profiles (A ++ B)
          ((Config.restore_profile (c.hide_profile unique_id) unique_id).profile_order)
        ++ [p] := by
    rw [sort_browser_profiles, sort_browser_profiles,
      sortByKey_append_max _ p (A ++ B)
        (fun q _ => by rw [hkey]; exact order_key_le_length _ q),
      sortByKey_append_max priority_key p _
        (fun q _ => by rw [hpk]; exact priority_key_le_one q)]
  constructor
  · refine ⟨sort_browser_profiles (A ++ B)
      ((Config.restore_profile (c.hide_profile unique_id) unique_id).profile_order), ?_⟩
    rw [h1]
    show (restoreAppProfile ⟨A ++ B, H ++ [p]⟩ (c.hide_profile unique_id)
      unique_id).1.visible_browser_profiles = _
    rw [hrest]
    exact hsort
  · rw [h1]
    show (restoreAppProfile ⟨A ++ B, H ++ [p]⟩ (c.hide_profile unique_id)
      unique_id).1.hidden_browser_profiles = H
    rw [hrest]

/-- C8 witness: hiding and restoring the non-priority profile `profQ` in
the presence of `profR` leaves the hidden sequence empty again. -/
theorem hide_then_restore_appends_non_priority_witness :
    (restoreAppProfile (hideAppProfile ⟨[profQ, profR], []⟩ ⟨["b#q", "b#r"], []⟩ "b#q").1
        (hideAppProfile ⟨[profQ, profR], []⟩ ⟨["b#q", "b#r"], []⟩ "b#q").2
        "b#q").1.hidden_browser_profiles = [] := by
  have h := (hide_then_restore_appends_non_priority [] [profR] [] profQ
    ⟨["b#q", "b#r"], []⟩ "b#q" (by decide)
    (by intro q hq; cases hq) (by intro q hq; cases hq) (by decide)).2
  simpa using h

theorem create_command_macos_eq (app : BrowserCommon) (p : CommonBrowserProfile)
    (url : String) (incognito_mode : Bool) (main : String) (rest : List String)
    (hcmd : app.command = main :: rest) :
    app.create_command TargetOS.macos p url incognito_mode
      = some ("open",
          if app.supported_app.url_as_first_arg then
            ["-b", app.supported_app.app_id, "-n", "--args"]
              ++ app.supported_app.profile_args p.profile_cli_arg_value
              ++ (if incognito_mode && app.supported_app.supports_incognito then
                    app.supported_app.incognito_args
                  else [])
              ++ [app.supported_app.transform_url p.profile_cli_arg_value url]
          else
            ["-b", app.supported_app.app_id,
                app.supported_app.transform_url p.profile_cli_arg_value url, "--args"]
              ++ app.supported_app.profile_args p.profile_cli_arg_value
              ++ (if incognito_mode && app.supported_app.supports_incognito then
                    app.supported_app.incognito_args
                  else [])) := by
  rw [BrowserCommon.create_command, hcmd]
  cases hf : app.supported_app.url_as_first_arg <;>
    cases hi : (incognito_mode && app.supported_app.supports_incognito) <;>
    simp [hf, hi, List.append_assoc]

theorem create_command_linux_eq (app : BrowserCommon) (p : CommonBrowserProfile)
    (url : String) (incognito_mode : Bool) (main : String) (rest : List String)
    (hcmd : app.command = main :: rest) :
    app.create_command TargetOS.linux p url incognito_mode
      = some (main,
          (if incognito_mode && app.supported_app.supports_incognito then
             app.supported_app.incognito_args
           else [])
          ++ (if rest.any (fun arg => eq_ignore_ascii_case arg "%u") then
                replace_url_placeholder rest
                  (app.supported_app.transform_url p.profile_cli_arg_value url)
              else rest)
          ++ app.supported_app.profile_args p.profile_cli_arg_value
          ++ (if rest.any (fun arg => eq_ignore_ascii_case arg "%u") then []
              else [app.supported_app.transform_url p.profile_cli_arg_value url])) := by
  rw [BrowserCommon.create_command, hcmd]
  cases hph : rest.any (fun arg => eq_ignore_ascii_case arg "%u") <;>
    cases hi : (incognito_mode && app.supported_app.supports_incognito) <;>
    simp [hph, hi, List.append_assoc]

theorem create_command_windows_eq (app : BrowserCommon) (p : CommonBrowserProfile)
    (url : String) (incognito_mode : Bool) (main : String) (rest : List String)
    (hcmd : app.command = main :: rest) :
    app.create_command TargetOS.windows p url incognito_mode
      = some (main,
          app.supported_app.profile_args p.profile_cli_arg_value
          ++ (if incognito_mode && app.supported_app.supports_incognito then
                app.supported_app.incognito_args
              else [])
          ++ [app.supported_app.transform_url p.profile_cli_arg_value url]) := by
  rw [BrowserCommon.create_command, hcmd]
  cases hi : (incognito_mode && app.supported_app.supports_incognito) <;>
    simp [hi, List.append_assoc]

/-- C5 counterexample: the claim fails as stated.  For a Safari-like app
whose URL is NOT declared as its first launch argument
(`url_as_first_arg = false`) the built macOS invocation does NOT force a
new instance: `-n` is absent from the argument list (the source adds `-n`
exactly WHEN `is_url_as_first_arg()` holds, not "unless"). -/
theorem create_command_macos_new_instance_cex :
    appMacSlot.supported_app.url_as_first_arg = false ∧
    appMacSlot.create_command TargetOS.macos profM "u" false
      = some ("open", ["-b", "idm", "u", "--args", "-p", "pm"]) ∧
    "-n" ∉ ["-b", "idm", "u", "--args", "-p", "pm"] := by
  refine ⟨by decide, by decide, by decide⟩

/-- C5 (amended): for every profile, URL and incognito flag, the
macOS-built invocation calls the generic open-by-app-identifier launcher
(`open` with `-b <bundle id>`) and appends profile-selecting arguments
after a `--args` separator; it forces a new instance (`-n`) exactly WHEN
the application declares it must receive the URL as its first launch
argument, in which case the transformed URL is placed as the terminal
argument instead of in the opener's URL slot; otherwise no new instance is
forced and the transformed URL occupies the opener's URL slot right after
the bundle id.  (The original claim inverted the new-instance condition —
see the counterexample.) -/
theorem create_command_macos_launcher_shape
    (app : BrowserCommon) (p : CommonBrowserProfile) (url : String)
    (incognito_mode : Bool) (main : String) (rest : List String)
    (hcmd : app.command = main :: rest) :
    app.create_command TargetOS.macos p url incognito_mode
      = some ("open",
          if app.supported_app.url_as_first_arg then
            ["-b", app.supported_app.app_id, "-n", "--args"]
              ++ app.supported_app.profile_args p.profile_cli_arg_value
              ++ (if incognito_mode && app.supported_app.supports_incognito then
                    app.supported_app.incognito_args
                  else [])
              ++ [app.supported_app.transform_url p.profile_cli_arg_value url]
          else
            ["-b", app.supported_app.app_id,
                app.supported_app.transform_url p.profile_cli_arg_value url, "--args"]
              ++ app.supported_app.profile_args p.profile_cli_arg_value
              ++ (if incognito_mode && app.supported_app.supports_incognito then
                    app.supported_app.incognito_args
                  else [])) :=
  create_command_macos_eq app p url incognito_mode main rest hcmd

/-- C5 witness: for an app that wants the URL as a launch argument the
invocation is `open -b idm -n --args -p pm -i u` — new instance forced,
URL terminal. -/
theorem create_command_macos_launcher_shape_witness :
    appMacFirst.create_command TargetOS.macos profM "u" true
      = some ("open", ["-b", "idm", "-n", "--args", "-p", "pm", "-i", "u"]) := by
  rw [create_command_macos_launcher_shape appMacFirst profM "u" true "m" [] rfl]
  decide

/-- C6: for every Linux command template and URL: when the template's
arguments contain the URL-placeholder token, the built invocation
substitutes the transformed URL at the placeholder's exact position (the
substituted list has the same length and is the pointwise substitution of
the template's arguments) and appends no additional trailing URL argument;
without a placeholder the URL is appended exactly once as the final
argument.  In particular, template `["app","--flag","%u"]` with url
`https://a.com` yields `["app","--flag","https://a.com"]`. -/
theorem create_command_linux_placeholder_substitution
    (app : BrowserCommon) (p : CommonBrowserProfile) (url : String)
    (incognito_mode : Bool) (main : String) (rest : List String)
    (hcmd : app.command = main :: rest) :
    (rest.any (fun arg => eq_ignore_ascii_case arg "%u") = true →
      app.create_command TargetOS.linux p url incognito_mode
        = some (main,
            (if incognito_mode && app.supported_app.supports_incognito then
               app.supported_app.incognito_args
             else [])
            ++ replace_url_placeholder rest
                 (app.supported_app.transform_url p.profile_cli_arg_value url)
            ++ app.supported_app.profile_args p.profile_cli_arg_value)) ∧
    (rest.any (fun arg => eq_ignore_ascii_case arg "%u") = false →
      app.create_command TargetOS.linux p url incognito_mode
        = some (main,
            (if incognito_mode && app.supported_app.supports_incognito then
               app.supported_app.incognito_args
             else [])
            ++ rest
            ++ app.supported_app.profile_args p.profile_cli_arg_value
            ++ [app.supported_app.transform_url p.profile_cli_arg_value url])) ∧
    ((replace_url_placeholder rest
        (app.supported_app.transform_url p.profile_cli_arg_value url)).length
      = rest.length) ∧
    (∀ i : Nat, (replace_url_placeholder rest
        (app.supported_app.transform_url p.profile_cli_arg_value url))[i]?
      = (rest[i]?).map (fun arg =>
          if eq_ignore_ascii_case arg "%u" then
            app.supported_app.transform_url p.profile_cli_arg_value url
          else arg)) ∧
    appLinPh.create_command TargetOS.linux profM "https://a.com" false
      = some ("app", ["--flag", "https://a.com"]) := by
  refine ⟨?_, ?_, ?_, ?_, by decide⟩
  · intro hph
    rw [create_command_linux_eq app p url incognito_mode main rest hcmd, hph]
    simp
  · intro hph
    rw [create_command_linux_eq app p url incognito_mode main rest hcmd, hph]
    simp [List.append_assoc]
  · exact List.length_map rest _
  · intro i
    simp [replace_url_placeholder]

/-- C6 witness: a template without the placeholder gets the URL appended
exactly once as the final argument. -/
theorem create_command_linux_placeholder_substitution_witness :
    appLinNoPh.create_command TargetOS.linux profM "https://a.com" false
      = some ("app", ["--flag", "https://a.com"]) := by
  have h := (create_command_linux_placeholder_substitution appLinNoPh profM
    "https://a.com" false "app" ["--flag"] rfl).2.1 (by decide)
  exact h.trans (by decide)

/-- C7: for every platform branch, profile and URL, the application's
incognito arguments appear in the built invocation exactly when the caller
requested incognito AND the application declares incognito support: when
both hold they form a contiguous segment of the argument list; when either
fails, no incognito argument occurs anywhere in the argument list (stated
for incognito arguments that do not coincide with the other argument
sources — template arguments, profile arguments, the transformed URL, or
the fixed macOS opener tokens). -/
theorem incognito_args_iff_requested_and_supported
    (os : TargetOS) (app : BrowserCommon) (p : CommonBrowserProfile) (url : String)
    (incognito_mode : Bool) (main : String) (rest : List String) (exe : String)
    (args : List String)
    (hcmd : app.command = main :: rest)
    (hres : app.create_command os p url incognito_mode = some (exe, args)) :
    ((incognito_mode && app.supported_app.supports_incognito) = true →
      ∃ x y, args = x ++ app.supported_app.incognito_args ++ y) ∧
    ((incognito_mode && app.supported_app.supports_incognito) = false →
      ∀ a ∈ app.supported_app.incognito_args,
        a ∉ rest →
        a ∉ app.supported_app.profile_args p.profile_cli_arg_value →
        a ≠ app.supported_app.transform_url p.profile_cli_arg_value url →
        a ∉ ["-b", app.supported_app.app_id, "-n", "--args"] →
        a ∉ args) := by
  cases os with
  | macos =>
    rw [create_command_macos_eq app p url incognito_mode main rest hcmd] at hres
    simp only [Option.some.injEq, Prod.mk.injEq] at hres
    obtain ⟨hexe, hargs⟩ := hres
    subst hargs
    constructor
    · intro hi
      by_cases hf : app.supported_app.url_as_first_arg = true
      · exact ⟨["-b", app.supported_app.app_id, "-n", "--args"]
            ++ app.supported_app.profile_args p.profile_cli_arg_value,
          [app.supported_app.transform_url p.profile_cli_arg_value url],
          by simp [hf, hi, List.append_assoc]⟩
      · have hf' : app.supported_app.url_as_first_arg = false := by
          simpa using hf
        exact ⟨["-b", app.supported_app.app_id,
              app.supported_app.transform_url p.profile_cli_arg_value url, "--args"]
            ++ app.supported_app.profile_args p.profile_cli_arg_value,
          [],
          by simp [hf', hi, List.append_assoc]⟩
    · intro hi a ha hrest hpargs hurl hfixed hmem
      simp only [List.mem_cons, List.not_mem_nil, or_false, not_or] at hfixed
      by_cases hf : app.supported_app.url_as_first_arg = true
      · simp only [hf, hi, if_true, Bool.false_eq_true, if_false, List.append_nil,
          List.mem_append, List.mem_cons, List.not_mem_nil, or_false] at hmem
        rcases hmem with ((h | h | h | h) | h) | h
        · exact hfixed.1 h
        · exact hfixed.2.1 h
        · exact hfixed.2.2.1 h
        · exact hfixed.2.2.2 h
        · exact hpargs h
        · exact hurl h
      · have hf' : app.supported_app.url_as_first_arg = false := by
          simpa using hf
        simp only [hf', hi, Bool.false_eq_true, if_false, List.append_nil,
          List.mem_append, List.mem_cons, List.not_mem_nil, or_false] at hmem
        rcases hmem with (h | h | h | h) | h
        · exact hfixed.1 h
        · exact hfixed.2.1 h
        · exact hurl h
        · exact hfixed.2.2.2 h
        · exact hpargs h
  | linux =>
    rw [create_command_linux_eq app p url incognito_mode main rest hcmd] at hres
    simp only [Option.some.injEq, Prod.mk.injEq] at hres
    obtain ⟨hexe, hargs⟩ := hres
    subst hargs
    constructor
    · intro hi
      refine ⟨[], (if rest.any (fun arg => eq_ignore_ascii_case arg "%u") then
            replace_url_placeholder rest
              (app.supported_app.transform_url p.profile_cli_arg_value url)
          else rest)
          ++ app.supported_app.profile_args p.profile_cli_arg_value
          ++ (if rest.any (fun arg => eq_ignore_ascii_case arg "%u") then []
              else [app.supported_app.transform_url p.profile_cli_arg_value url]),
        ?_⟩
      rw [hi]
      simp [List.append_assoc]
    · intro hi a ha hrest hpargs hurl hfixed hmem
      rw [hi] at hmem
      by_cases hph : rest.any (fun arg => eq_ignore_ascii_case arg "%u") = true
      · simp only [hph, if_true, Bool.false_eq_true, if_false, List.nil_append,
          List.append_nil, List.mem_append] at hmem
        rcases hmem with h | h
        · rw [replace_url_placeholder, List.mem_map] at h
          obtain ⟨b, hb, hba⟩ := h
          by_cases hbu : eq_ignore_ascii_case b "%u" = true
          · rw [if_pos hbu] at hba
            exact hurl hba.symm
          · rw [if_neg hbu] at hba
            exact hrest (hba ▸ hb)
        · exact hpargs h
      · have hph' : rest.any (fun arg => eq_ignore_ascii_case arg "%u") = false := by
          simpa using hph
        simp only [hph', Bool.false_eq_true, if_false, List.nil_append,
          List.mem_append, List.mem_cons, List.not_mem_nil, or_false] at hmem
        rcases hmem with (h | h) | h
        · exact hrest h
        · exact hpargs h
        · exact hurl h
  | windows =>
    rw [create_command_windows_eq app p url incognito_mode main rest hcmd] at hres
    simp only [Option.some.injEq, Prod.mk.injEq] at hres
    obtain ⟨hexe, hargs⟩ := hres
    subst hargs
    constructor
    · intro hi
      exact ⟨app.supported_app.profile_args p.profile_cli_arg_value,
        [app.supported_app.transform_url p.profile_cli_arg_value url],
        by rw [hi]; simp [List.append_assoc]⟩
    · intro hi a ha hrest hpargs hurl hfixed hmem
      rw [hi] at hmem
      simp only [Bool.false_eq_true, if_false, List.append_nil, List.mem_append,
        List.mem_cons, List.not_mem_nil, or_false] at hmem
      rcases hmem with h | h
      · exact hpargs h
      · exact hurl h

/-- C7 witness: for an app that does not declare incognito support, a
request for incognito leaves the incognito argument `-i` out of the built
Windows invocation entirely. -/
theorem incognito_args_iff_requested_and_supported_witness :
    "-i" ∉ ["-p", "u2"] ∧
    appNoIncog.create_command TargetOS.windows profM "u2" true
      = some ("w", ["-p", "u2"]) := by
  refine ⟨?_, by decide⟩
  exact (incognito_args_iff_requested_and_supported TargetOS.windows appNoIncog profM
    "u2" true "w" [] "w" ["-p", "u2"] rfl (by decide)).2 (by decide)
    "-i" (by decide) (by decide) (by decide) (by decide) (by decide)

theorem get_browser_profile_by_id_isSome (s : VisibleAndHiddenProfiles) (uid : String) :
    (s.get_browser_profile_by_id uid).isSome = true ↔
      (∃ q ∈ s.visible_browser_profiles, q.get_unique_id = uid) ∨
      (∃ q ∈ s.hidden_browser_profiles, q.get_unique_id = uid) := by
  rw [VisibleAndHiddenProfiles.get_browser_profile_by_id]
  cases hv : s.visible_browser_profiles.find? (fun x => x.get_unique_id == uid) with
  | some q =>
    simp only [hv, Option.isSome_some]
    constructor
    · intro _
      left
      exact ⟨q, List.mem_of_find?_eq_some hv, by simpa using List.find?_some hv⟩
    · intro _
      trivial
  | none =>
    simp only [hv]
    rw [List.find?_eq_none] at hv
    constructor
    · intro h
      right
      rw [List.find?_isSome] at h
      obtain ⟨x, hx, hpx⟩ := h
      exact ⟨x, hx, by simpa using hpx⟩
    · intro h
      rcases h with ⟨q, hq, hqid⟩ | ⟨q, hq, hqid⟩
      · exact absurd (by simpa using hqid : (q.get_unique_id == uid) = true)
          (by simpa using hv q hq)
      · rw [List.find?_isSome]
        exact ⟨q, hq, by simpa using hqid⟩

/-- C10: looking a profile up by unique id searches the visible sequence
first and then the hidden one, returning `some` exactly when a profile with
the id occurs in either sequence; consequently a matching opening rule
whose target profile is hidden still resolves and launches (it is not a
lookup miss). -/
theorem profile_lookup_visible_then_hidden_launches_hidden
    (s : VisibleAndHiddenProfiles) (unique_id : String) :
    ((s.get_browser_profile_by_id unique_id).isSome = true ↔
      (∃ q ∈ s.visible_browser_profiles, q.get_unique_id = unique_id) ∨
      (∃ q ∈ s.hidden_browser_profiles, q.get_unique_id = unique_id)) ∧
    (∀ q, s.visible_browser_profiles.find? (fun x => x.get_unique_id == unique_id)
        = some q →
      s.get_browser_profile_by_id unique_id = some q) ∧
    (s.visible_browser_profiles.find? (fun x => x.get_unique_id == unique_id) = none →
      s.get_browser_profile_by_id unique_id
        = s.hidden_browser_profiles.find? (fun x => x.get_unique_id == unique_id)) ∧
    (∀ (υ : Type) (parse : String → Option υ) (gm : String → υ → Bool)
        (self : OpeningRulesAndDefaultProfile) (ctx : UrlOpenContext)
        (pao : ProfileAndOptions) (q : CommonBrowserProfile),
      self.get_rule_for_source_app_and_url parse gm ctx = some pao →
      q ∈ s.hidden_browser_profiles →
      q.get_unique_id = pao.profile →
      (open_link_if_matching_rule self parse gm ctx s).isSome = true) := by
  refine ⟨get_browser_profile_by_id_isSome s unique_id, ?_, ?_, ?_⟩
  · intro q hv
    simp only [VisibleAndHiddenProfiles.get_browser_profile_by_id, hv]
  · intro hv
    simp only [VisibleAndHiddenProfiles.get_browser_profile_by_id, hv]
  · intro υ parse gm self ctx pao q hres hqmem hqid
    have hsome : (s.get_browser_profile_by_id pao.profile).isSome = true :=
      (get_browser_profile_by_id_isSome s pao.profile).mpr (Or.inr ⟨q, hqmem, hqid⟩)
    rw [open_link_if_matching_rule, hres]
    show (match s.get_browser_profile_by_id pao.profile with
      | some profile => some (profile, ctx.cleaned_url, pao.incognito)
      | none => none).isSome = true
    cases hg : s.get_browser_profile_by_id pao.profile with
    | none => rw [hg] at hsome; simp at hsome
    | some prof => rfl

/-- C10 witness: a rule targeting the hidden profile `b#q` still launches
that profile. -/
theorem profile_lookup_visible_then_hidden_launches_hidden_witness :
    (open_link_if_matching_rule ⟨[ruleToQ], none⟩ parseOk gmAny ⟨"u", none⟩
      ⟨[], [profQ]⟩).isSome = true :=
  (profile_lookup_visible_then_hidden_launches_hidden ⟨[], [profQ]⟩ "b#q").2.2.2
    Unit parseOk gmAny ⟨[ruleToQ], none⟩ ⟨"u", none⟩ ⟨"b#q", false⟩ profQ
    (by decide) (by simp) (by decide)

end Browsers
